import Mathlib

/-!
Verification of the document-processing orchestration core.

Shallow embedding of the Python services in src/app: the text-chunking
algorithm and vector indexing of VectorService, the processing pipeline of
DocumentService, the LLM analysis wrapper of LLMProcessor, the Redis-backed
CacheService, and the relevant API endpoints. Python strings are modelled as
List Char; the two loops of the code that are not structurally recursive
(the word-packing while-loop inside _split_text, whose progress depends on
data) are given an explicit fuel parameter: a result of none means the
Python loop never terminates, and some r means it terminates with result r
for every sufficiently large fuel.
-/

deriving instance DecidableEq for Except

namespace DocProc

/-- Python str, modelled as a list of characters. -/
abbrev Str := List Char

/-- Python whitespace, as recognised by str.strip() and str.split(). -/
def isSpaceChar (c : Char) : Bool :=
  c == ' ' || c == '\t' || c == '\n' || c == '\r' || c == '\x0b' || c == '\x0c'

/-- Removal of trailing whitespace (the right half of Python str.strip()). -/
def trimRight (s : Str) : Str :=
  (s.reverse.dropWhile isSpaceChar).reverse

/-- Python str.strip(): drop leading and trailing whitespace. -/
def pyStrip (s : Str) : Str :=
  (trimRight s).dropWhile isSpaceChar

/-- Python text.split(". "): split on each non-overlapping occurrence of
the two-character separator, left to right, keeping empty pieces. -/
def splitDotSpace : Str → List Str
  | [] => [[]]
  | '.' :: ' ' :: rest => [] :: splitDotSpace rest
  | c :: rest =>
    match splitDotSpace rest with
    | [] => [[c]]
    | s :: ss => (c :: s) :: ss

/-- Python text.replace(chr(10), " "). -/
def replaceNewlines (s : Str) : Str :=
  s.map (fun c => if c == '\n' then ' ' else c)

/-- Helper for pyWords: accumulates the current word (reversed). -/
def pyWordsAux : Str → Str → List Str
  | [], acc => if acc = [] then [] else [acc.reverse]
  | c :: rest, acc =>
    if isSpaceChar c then
      if acc = [] then pyWordsAux rest [] else acc.reverse :: pyWordsAux rest []
    else pyWordsAux rest (c :: acc)

/-- Python sentence.split() with no argument: whitespace-delimited words,
with no empty tokens. -/
def pyWords (s : Str) : List Str :=
  pyWordsAux s []

/-- The inner word-packing loop of VectorService._split_text: starting from
the running sub-chunk temp, greedily pop words while
len(temp_chunk + words[0]) < max_chunk_size, appending each popped word plus
a space.  Returns the final sub-chunk and the unconsumed words. -/
def packWords (maxSize : Nat) : Str → List Str → Str × List Str
  | temp, [] => (temp, [])
  | temp, w :: ws =>
    if temp.length + w.length < maxSize then
      packWords maxSize (temp ++ w ++ [' ']) ws
    else (temp, w :: ws)

/-- The outer while words loop of the word-splitting branch of
VectorService._split_text.  Each iteration builds one sub-chunk via
packWords and appends its stripped form when non-empty.  The Python loop
makes no progress when the next word alone already reaches max_chunk_size;
fuel bounds the number of iterations, so none means the loop never
terminates. -/
def splitWordsLoop (maxSize : Nat) : Nat → List Str → Option (List Str)
  | _, [] => some []
  | 0, _ :: _ => none
  | fuel + 1, w :: ws =>
    match packWords maxSize [] (w :: ws) with
    | (temp, rest) =>
      match splitWordsLoop maxSize fuel rest with
      | none => none
      | some cs => some (if temp = [] then cs else pyStrip temp :: cs)

/-- The sentence loop of VectorService._split_text: for each sentence, if
appending it to the running buffer would exceed max_chunk_size, either flush
the buffer (when non-empty) and restart it with this sentence, or (when the
buffer is empty) split the sentence by words; otherwise append the sentence
plus ". " to the buffer.  Returns the chunks accumulated so far and the
final buffer. -/
def sentenceLoop (maxSize fuel : Nat) :
    List Str → Str → List Str → Option (List Str × Str)
  | [], current, acc => some (acc, current)
  | s :: rest, current, acc =>
    if maxSize < current.length + s.length then
      if current = [] then
        match splitWordsLoop maxSize fuel (pyWords s) with
        | none => none
        | some cs => sentenceLoop maxSize fuel rest [] (acc ++ cs)
      else sentenceLoop maxSize fuel rest s (acc ++ [pyStrip current])
    else sentenceLoop maxSize fuel rest (current ++ s ++ ['.', ' ']) acc

/-- VectorService._split_text(text, max_chunk_size): return [text] when it
already fits, otherwise split into sentences on ". " (newlines first
normalised to spaces), run the sentence loop, and flush any remaining
buffer whose stripped form is non-empty. -/
def split_text (fuel : Nat) (text : Str) (maxSize : Nat) : Option (List Str) :=
  if text.length ≤ maxSize then some [text]
  else
    match sentenceLoop maxSize fuel (splitDotSpace (replaceNewlines text)) [] [] with
    | none => none
    | some (acc, current) =>
      some (if pyStrip current = [] then acc else acc ++ [pyStrip current])

/-- Property of a produced chunk established below: it is within one
character of the limit (the buffer keeps its appended ". " whose period
survives stripping), or it is a whitespace-stripped sentence of the text,
emitted verbatim (a sentence longer than the limit arriving while the
buffer is non-empty becomes the new buffer and is later flushed whole). -/
def ChunkOK (maxSize : Nat) (sents : List Str) (c : Str) : Prop :=
  c.length ≤ maxSize + 1 ∨ ∃ s ∈ sents, c = pyStrip s

/-- Invariant of the running buffer of the sentence loop: empty, or a
sentence moved in whole by the flush branch, or an accumulation ending in
". " of length at most maxSize + 2. -/
def BufOK (maxSize : Nat) (sents : List Str) (cur : Str) : Prop :=
  cur = [] ∨ cur ∈ sents ∨
    (cur.length ≤ maxSize + 2 ∧ ∃ y, cur = y ++ ['.', ' '])

/-- The property claimed for C4, formalised from the specification's words:
every chunk has length at most maxChunkSize, except an unsplittable
(whitespace-delimited) token of the text longer than maxChunkSize that
appears verbatim as its own chunk. -/
abbrev specChunkOK (text : Str) (maxSize : Nat) (c : Str) : Prop :=
  c.length ≤ maxSize ∨ (maxSize < c.length ∧ c ∈ pyWords text)

/-! The document record kept by the storage layer (app/models/database.py),
restricted to the fields the orchestration core reads and writes.
Wall-clock fields (processing_time_seconds, created_at, updated_at) are
outside the model. -/

/-- Document.status values. -/
inductive Status
  | uploaded
  | processing
  | completed
  | failed
deriving DecidableEq

/-- The value stored in Document.llm_analysis: LLMProcessor.analyze_document
always returns a dict; on any exception from the LLM client it returns an
error payload (with a fallback analysis) instead of raising.  The payload
content is abstracted to its message, the control flow is preserved. -/
inductive AnalysisValue
  | parsed (raw : String)
  | errorPayload (msg : String)
deriving DecidableEq

/-- The persisted document record. -/
structure Doc where
  docId : String
  originalFilename : String
  documentType : String
  status : Status
  extractedText : Option Str
  ocrConfidence : Option Int
  pagesCount : Option Nat
  languageDetected : Option String
  llmAnalysis : Option AnalysisValue
  errorMessage : Option String
  retryCount : Nat
deriving DecidableEq

/-- The data-model invariant of the specification (§3): analysisResult and
extractedText are non-null only when status is COMPLETED, and FAILED
implies a non-null errorMessage. -/
abbrev DocInv (d : Doc) : Prop :=
  (d.extractedText ≠ none → d.status = .completed) ∧
  (d.llmAnalysis ≠ none → d.status = .completed) ∧
  (d.status = .failed → d.errorMessage ≠ none)

/-- Result of OCRProcessor.extract_text on success (it raises on failure). -/
structure OcrResult where
  text : Str
  confidence : Int
  pagesCount : Nat
  language : String
deriving DecidableEq

/-- Metadata attached to every chunk row at indexing time
(document_type, filename, llm_analysis). -/
structure ChunkMeta where
  documentType : String
  filename : String
  llmAnalysis : AnalysisValue
deriving DecidableEq

/-- One row of the Milvus collection document_embeddings. -/
structure ChunkRow where
  rowId : String
  documentId : String
  textChunk : Str
  embedding : Int
  metadata : ChunkMeta
  chunkIndex : Nat
deriving DecidableEq

/-- The Milvus collection state: the inserted rows. -/
abbrev VStore := List ChunkRow

/-- VectorService.create_document_embedding: split the text into chunks
with max_chunk_size 1000, embed each chunk and insert the rows with ids
docId followed by a chunk suffix and index.  encode stands for the
SentenceTransformer; insertOk carries the collaborator outcome (some msg
means the embedder or Milvus raised, before any row was inserted).  The
method never deletes existing rows for the document.  none propagates
non-termination of _split_text. -/
def create_document_embedding (encode : Str → Int) (insertOk : Option String)
    (fuel : Nat) (store : VStore) (docId : String) (text : Str)
    (md : ChunkMeta) : Option (Except String (VStore × Nat)) :=
  match split_text fuel text 1000 with
  | none => none
  | some cs =>
    match insertOk with
    | some msg => some (.error msg)
    | none =>
      let rows := cs.enum.map (fun ic =>
        { rowId := docId ++ "_chunk_" ++ toString ic.1,
          documentId := docId,
          textChunk := ic.2,
          embedding := encode ic.2,
          metadata := md,
          chunkIndex := ic.1 : ChunkRow })
      some (.ok (store ++ rows, rows.length))

/-- VectorService.delete_document_embeddings: remove every row whose
document_id matches. -/
def delete_document_embeddings (store : VStore) (docId : String) : VStore :=
  store.filter (fun r => r.documentId != docId)

/-- Outcome of the LLM chat-completion network call made inside
LLMProcessor.analyze_document. -/
inductive LLMCallOutcome
  | success (raw : String)
  | failure (msg : String)
deriving DecidableEq

/-- LLMProcessor.analyze_document: returns an error payload when the text
is shorter than 10 stripped characters, and catches every exception of the
LLM call, returning an error payload with a fallback analysis instead of
raising.  The JSON-parse fallback of a successful call also returns
normally and is folded into parsed. -/
def analyze_document (text : Str) (call : LLMCallOutcome) : AnalysisValue :=
  if (pyStrip text).length < 10 then .errorPayload "Text too short for analysis"
  else
    match call with
    | .success raw => .parsed raw
    | .failure msg => .errorPayload ("Analysis failed: " ++ msg)

/-- Collaborator outcomes of one pipeline run: the OCR extraction result,
the pure document-type classifier, the LLM call outcome, the embedding
model, and the Milvus insert outcome. -/
structure RunEnv where
  ocr : Except String OcrResult
  detect : Str → String
  llmCall : LLMCallOutcome
  encode : Str → Int
  insertOk : Option String

/-- Whether the run returned normally or propagated an exception (which
process_document re-raises after recording the failure). -/
inductive RunOutcome
  | succeeded
  | raised (msg : String)
deriving DecidableEq

/-- The except-branch of DocumentService.process_document: status failed,
error message recorded, retry_count incremented. -/
def failDoc (d : Doc) (msg : String) : Doc :=
  { d with status := .failed, errorMessage := some msg,
           retryCount := d.retryCount + 1 }

/-- DocumentService.process_document for an existing document: commit
status processing, extract text (a raised extraction error lands in the
except-branch), detect the document type when it is "other", run the LLM
analysis (which never raises), create the vector embeddings (a raised
indexing error lands in the except-branch), then persist the extracted
fields and the analysis and commit status completed.  None of the branches
reads the prior status.  none propagates non-termination of _split_text. -/
def process_document (fuel : Nat) (env : RunEnv) (doc : Doc) (store : VStore) :
    Option (Doc × VStore × RunOutcome) :=
  let d1 : Doc := { doc with status := .processing }
  match env.ocr with
  | .error msg => some (failDoc d1 msg, store, .raised msg)
  | .ok ocrRes =>
    let extracted := ocrRes.text
    let newType :=
      if d1.documentType = "other" then env.detect extracted
      else d1.documentType
    let d2 : Doc := { d1 with documentType := newType }
    let analysis := analyze_document extracted env.llmCall
    let md : ChunkMeta :=
      { documentType := d2.documentType,
        filename := d2.originalFilename,
        llmAnalysis := analysis }
    match create_document_embedding env.encode env.insertOk fuel store
        d2.docId extracted md with
    | none => none
    | some (.error msg) => some (failDoc d2 msg, store, .raised msg)
    | some (.ok (store', _)) =>
      some ({ d2 with
                extractedText := some extracted,
                ocrConfidence := some ocrRes.confidence,
                pagesCount := some ocrRes.pagesCount,
                languageDetected := some ocrRes.language,
                llmAnalysis := some analysis,
                status := .completed },
            store', .succeeded)

/-! The Redis result cache (app/services/cache_service.py), modelled as an
association list from keys to values with the TTL recorded on the entry
(expiry itself is outside the model: no clock). -/

/-- A cached snapshot: a status response or a results payload. -/
inductive CacheVal
  | statusSnap (s : Status)
  | resultsSnap (documentId : String) (s : Status) (extractedText : Option Str)
      (llmAnalysis : Option AnalysisValue)
deriving DecidableEq

/-- One Redis entry. -/
structure CacheEntry where
  key : String
  val : CacheVal
  ttl : Nat
deriving DecidableEq

/-- The Redis keyspace. -/
abbrev Cache := List CacheEntry

/-- redis get. -/
def cacheGet (c : Cache) (k : String) : Option CacheVal :=
  (c.find? (fun e => e.key == k)).map (fun e => e.val)

/-- redis setex: overwrite the key with the value and TTL. -/
def cacheSet (c : Cache) (k : String) (v : CacheVal) (ttl : Nat) : Cache :=
  ⟨k, v, ttl⟩ :: c.filter (fun e => e.key != k)

/-- redis delete of one key. -/
def cacheDel (c : Cache) (k : String) : Cache :=
  c.filter (fun e => e.key != k)

/-- CacheService.clear_document_cache: delete the status, results and
insights keys of the document. -/
def clear_document_cache (c : Cache) (docId : String) : Cache :=
  cacheDel (cacheDel (cacheDel c ("status:" ++ docId)) ("results:" ++ docId))
    ("insights:" ++ docId)

/-- The ordered externally visible steps of the reprocess endpoint. -/
inductive ReprocessAction
  | commitReset
  | cacheCleared
  | scheduledRun
deriving DecidableEq

/-- The reprocess_document endpoint for an existing document (a missing one
is answered with 404 before any mutation): reset status to uploaded, clear
error_message, reset retry_count to 0 and commit; clear the document's
cache entries; then queue the background run.  extracted_text and
llm_analysis are left untouched. -/
def reprocess_document (doc : Doc) (cache : Cache) :
    Doc × Cache × List ReprocessAction :=
  let d' : Doc := { doc with status := .uploaded, errorMessage := none,
                             retryCount := 0 }
  let c' := clear_document_cache cache doc.docId
  (d', c', [.commitReset, .cacheCleared, .scheduledRun])

/-- Outcome of the get_document_results endpoint. -/
inductive ResultsOutcome
  | cachedPayload (v : CacheVal)
  | notFound
  | invalidState (st : Status)
  | payload (v : CacheVal)
deriving DecidableEq

/-- The get_document_results endpoint: serve from the results cache when
present; 404 when the document does not exist; 400 (InvalidStateError) when
its status is not completed; otherwise build the results payload, cache it
in the results namespace with TTL 3600 and return it. -/
def get_document_results (cache : Cache) (dbDoc : Option Doc)
    (docId : String) : ResultsOutcome × Cache :=
  match cacheGet cache ("results:" ++ docId) with
  | some v => (.cachedPayload v, cache)
  | none =>
    match dbDoc with
    | none => (.notFound, cache)
    | some doc =>
      if doc.status ≠ Status.completed then (.invalidState doc.status, cache)
      else
        let p : CacheVal := .resultsSnap docId doc.status doc.extractedText
          doc.llmAnalysis
        (.payload p, cacheSet cache ("results:" ++ docId) p 3600)

/-! The similarity search of VectorService.search_similar_documents. -/

/-- One Milvus hit, as read back by the search. -/
structure Hit where
  documentId : String
  score : Int
  textChunk : Str
  chunkIndex : Nat
deriving DecidableEq

/-- One element of the returned list. -/
structure SimilarDoc where
  documentId : String
  similarityScore : Int
  textPreview : Str
  chunkIndex : Nat
deriving DecidableEq

/-- Building the returned record from a hit: the preview is the chunk text
truncated to 200 characters with an ellipsis appended. -/
def toSimilar (h : Hit) : SimilarDoc :=
  { documentId := h.documentId,
    similarityScore := h.score,
    textPreview := h.textChunk.take 200 ++ "...".toList,
    chunkIndex := h.chunkIndex }

/-- The result-processing loop: walk hits in order, skip a hit whose
document is already in the output, otherwise append it; stop as soon as the
output reaches limit entries (the check runs after the append). -/
def searchLoop (limit : Nat) : List Hit → List SimilarDoc → List String →
    List SimilarDoc
  | [], acc, _ => acc
  | h :: rest, acc, seen =>
    if h.documentId ∈ seen then searchLoop limit rest acc seen
    else
      let acc' := acc ++ [toSimilar h]
      if limit ≤ acc'.length then acc'
      else searchLoop limit rest acc' (h.documentId :: seen)

/-- Availability of the two search collaborators. -/
structure SearchEnv where
  embedderUp : Bool
  storeUp : Bool

/-- The body of the try-block of search_similar_documents: encode the query
(raises when the embedding model is unavailable), load and query Milvus for
the limit * 2 nearest chunks (raises when the store is unavailable), then
deduplicate per document.  ranking is the corpus-wide similarity ranking
provided by Milvus. -/
def searchBody (env : SearchEnv) (ranking : List Hit) (limit : Nat) :
    Except String (List SimilarDoc) :=
  if env.embedderUp = false then .error "embedding model unavailable"
  else if env.storeUp = false then .error "vector store unavailable"
  else .ok (searchLoop limit (ranking.take (limit * 2)) [] [])

/-- VectorService.search_similar_documents: the except-branch catches every
exception of the body, logs it and returns the empty list.
DocumentService.search_similar_documents wraps this in one more identical
try/except. -/
def search_similar_documents (env : SearchEnv) (ranking : List Hit)
    (limit : Nat) : List SimilarDoc :=
  match searchBody env ranking limit with
  | .ok docs => docs
  | .error _ => []

/-- The search_documents endpoint: FastAPI validates the query length
(min_length 3) and the limit (ge 1, le 50) before the service is called. -/
def search_documents_endpoint (env : SearchEnv) (ranking : List Hit)
    (query : Str) (limit : Nat) : Except String (List SimilarDoc) :=
  if query.length < 3 then .error "validation error: query too short"
  else if limit < 1 ∨ 50 < limit then .error "validation error: limit out of range"
  else .ok (search_similar_documents env ranking limit)

/-! Concrete sample inputs used by counterexamples and witnesses. -/

/-- A freshly uploaded document record. -/
def baseDoc : Doc :=
  { docId := "d1", originalFilename := "f.pdf", documentType := "invoice",
    status := .uploaded, extractedText := none, ocrConfidence := none,
    pagesCount := none, languageDetected := none, llmAnalysis := none,
    errorMessage := none, retryCount := 0 }

/-- A run environment in which every collaborator succeeds. -/
def okEnv : RunEnv :=
  { ocr := .ok ⟨"hello world of documents".toList, 1, 1, "en"⟩,
    detect := fun _ => "invoice",
    llmCall := .success "summary",
    encode := fun _ => 0,
    insertOk := none }

/-- The same environment with the LLM call timing out. -/
def timeoutEnv : RunEnv :=
  { okEnv with llmCall := .failure "Request timed out" }

/-- First run of process_document on a document already in PROCESSING. -/
def ceRun1 : Option (Doc × VStore × RunOutcome) :=
  process_document 1 okEnv { baseDoc with status := .processing } []

/-- Immediately repeated run on the state left by the first run. -/
def ceRun2 : Option (Doc × VStore × RunOutcome) :=
  match ceRun1 with
  | some (d1, s1, _) => process_document 1 okEnv d1 s1
  | none => none

/-- A completed document carrying extraction and analysis results. -/
def completedDoc : Doc :=
  { baseDoc with status := .completed,
                 extractedText := some "hello world of documents".toList,
                 llmAnalysis := some (.parsed "summary") }

/-- A concrete Milvus hit. -/
def sampleHit : Hit :=
  { documentId := "d1", score := 9, textChunk := "hello".toList,
    chunkIndex := 0 }

/-- A concrete descending ranking over two documents, with a lower-scored
second chunk of the first document in between. -/
def sampleRanking : List Hit :=
  [{ documentId := "d1", score := 9, textChunk := "aa".toList, chunkIndex := 0 },
   { documentId := "d1", score := 7, textChunk := "ab".toList, chunkIndex := 1 },
   { documentId := "d2", score := 5, textChunk := "ba".toList, chunkIndex := 0 }]

/-- An environment with both search collaborators available. -/
def upEnv : SearchEnv := { embedderUp := true, storeUp := true }

/-- The concrete search result on sampleRanking. -/
def sampleSearchRes : List SimilarDoc :=
  search_similar_documents upEnv sampleRanking 5

/-- Chunk metadata of the sample runs. -/
def sampleMeta : ChunkMeta :=
  { documentType := "invoice", filename := "f.pdf",
    llmAnalysis := .parsed "summary" }

/-- The store produced by indexing the sample text once for d1. -/
def sampleIndexed : VStore :=
  [{ rowId := "d1_chunk_0", documentId := "d1", textChunk := "hello".toList,
     embedding := 0, metadata := sampleMeta, chunkIndex := 0 }]

/-- A run of the pipeline on the fresh sample document with the LLM call
timing out. -/
def timeoutRun : Option (Doc × VStore × RunOutcome) :=
  process_document 1 timeoutEnv baseDoc []

/-- The document record left by timeoutRun. -/
def timeoutDoc : Doc := (timeoutRun.map (fun r => r.1)).getD baseDoc

/-- The vector store left by timeoutRun. -/
def timeoutStore : VStore := (timeoutRun.map (fun r => r.2.1)).getD []

/-- The outcome of timeoutRun. -/
def timeoutOutcome : RunOutcome :=
  (timeoutRun.map (fun r => r.2.2)).getD .succeeded

example : split_text 5 "hello".toList 10 = some ["hello".toList] := by decide

example : split_text 9 "abcde. xx".toList 5 =
    some ["abcde.".toList, "xx".toList] := by decide

example : split_text 9 "ab cdef. zzz".toList 7 =
    some ["ab cdef.".toList, "zzz".toList] := by decide

example : split_text 3 "aa bb cc dd".toList 6 =
    some ["aa bb".toList, "cc dd".toList] := by decide

example : split_text 0 "aaaaaa".toList 5 = none := by decide

example : split_text 50 "aaaaaa".toList 5 = none := by decide

/-! Lemmas about stripping and word packing. -/

lemma pyStrip_length_le (s : Str) : (pyStrip s).length ≤ s.length := by
  unfold pyStrip trimRight
  calc ((s.reverse.dropWhile isSpaceChar).reverse.dropWhile isSpaceChar).length
      ≤ (s.reverse.dropWhile isSpaceChar).reverse.length :=
        (List.dropWhile_sublist _).length_le
    _ = (s.reverse.dropWhile isSpaceChar).length := List.length_reverse _
    _ ≤ s.reverse.length := (List.dropWhile_sublist _).length_le
    _ = s.length := List.length_reverse _

lemma pyStrip_append_space (s : Str) : pyStrip (s ++ [' ']) = pyStrip s := by
  unfold pyStrip trimRight
  have h : (s ++ [' ']).reverse.dropWhile isSpaceChar =
      s.reverse.dropWhile isSpaceChar := by
    rw [List.reverse_append]
    simp [List.dropWhile, isSpaceChar]
  rw [h]

lemma pyStrip_buffer_length (y : Str) :
    (pyStrip (y ++ ['.', ' '])).length ≤ y.length + 1 := by
  have h : y ++ ['.', ' '] = (y ++ ['.']) ++ [' '] := by simp
  rw [h, pyStrip_append_space]
  have := pyStrip_length_le (y ++ ['.'])
  simpa using this

lemma packWords_fst_length (maxSize : Nat) :
    ∀ (ws : List Str) (temp : Str), temp.length ≤ maxSize →
      ((packWords maxSize temp ws).1).length ≤ maxSize := by
  intro ws
  induction ws with
  | nil => intro temp h; simpa [packWords] using h
  | cons w ws ih =>
    intro temp h
    rw [packWords]
    by_cases hc : temp.length + w.length < maxSize
    · rw [if_pos hc]
      apply ih
      simp only [List.length_append, List.length_cons, List.length_nil]
      omega
    · rw [if_neg hc]
      exact h

lemma splitWordsLoop_bound (maxSize : Nat) :
    ∀ (fuel : Nat) (ws cs : List Str), splitWordsLoop maxSize fuel ws = some cs →
      ∀ c ∈ cs, c.length ≤ maxSize := by
  intro fuel
  induction fuel with
  | zero =>
    intro ws cs h c hc
    cases ws with
    | nil =>
      simp only [splitWordsLoop, Option.some.injEq] at h
      subst h; simp at hc
    | cons w ws => simp [splitWordsLoop] at h
  | succ n ih =>
    intro ws cs h c hc
    cases ws with
    | nil =>
      simp only [splitWordsLoop, Option.some.injEq] at h
      subst h; simp at hc
    | cons w ws =>
      rw [splitWordsLoop] at h
      rcases hpack : packWords maxSize [] (w :: ws) with ⟨temp, rest⟩
      rw [hpack] at h
      dsimp only at h
      cases hrec : splitWordsLoop maxSize n rest with
      | none => rw [hrec] at h; simp at h
      | some cs' =>
        rw [hrec] at h
        simp only [Option.some.injEq] at h
        subst h
        by_cases htemp : temp = []
        · rw [if_pos htemp] at hc
          exact ih rest cs' hrec c hc
        · rw [if_neg htemp] at hc
          rcases List.mem_cons.mp hc with hc | hc
          · subst hc
            have h1 : temp.length ≤ maxSize := by
              have := packWords_fst_length maxSize (w :: ws) [] (by simp)
              rw [hpack] at this
              exact this
            exact le_trans (pyStrip_length_le temp) h1
          · exact ih rest cs' hrec c hc

lemma splitWordsLoop_stuck (maxSize : Nat) (w : Str) (ws : List Str)
    (hw : maxSize ≤ w.length) :
    ∀ fuel, splitWordsLoop maxSize fuel (w :: ws) = none := by
  intro fuel
  induction fuel with
  | zero => simp [splitWordsLoop]
  | succ n ih =>
    have hpack : packWords maxSize [] (w :: ws) = ([], w :: ws) := by
      rw [packWords, if_neg (by simp; omega)]
    rw [splitWordsLoop, hpack]
    dsimp only
    rw [ih]

/-- C3: the chunking function is not total.  On a text a single
whitespace-free token of length 6 with maxChunkSize 5, the word-packing
loop pops nothing (the guard requires the packed length to stay strictly
below the limit) and makes no progress, so no amount of fuel produces a
result: the Python loop runs forever instead of emitting the token as an
oversized chunk. -/
theorem split_text_diverges_on_long_token :
    ∀ fuel : Nat, split_text fuel "aaaaaa".toList 5 = none := by
  intro fuel
  have hstuck : splitWordsLoop 5 fuel (pyWords "aaaaaa".toList) = none := by
    have hwords : pyWords "aaaaaa".toList = ["aaaaaa".toList] := by decide
    rw [hwords]
    exact splitWordsLoop_stuck 5 "aaaaaa".toList [] (by decide) fuel
  rw [split_text, if_neg (by decide)]
  have hsents : splitDotSpace (replaceNewlines "aaaaaa".toList) =
      ["aaaaaa".toList] := by decide
  rw [hsents, sentenceLoop, if_pos (by decide), if_pos rfl, hstuck]

/-! Chunk-size behaviour of _split_text (C4). -/

lemma flush_chunkOK (maxSize : Nat) (S : List Str) (cur : Str)
    (hbuf : BufOK maxSize S cur) : ChunkOK maxSize S (pyStrip cur) := by
  rcases hbuf with h | h | ⟨hlen, y, hy⟩
  · subst h; exact Or.inl (by simp [pyStrip, trimRight])
  · exact Or.inr ⟨cur, h, rfl⟩
  · subst hy
    left
    have h1 := pyStrip_buffer_length y
    have h2 : y.length + 2 ≤ maxSize + 2 := by simpa using hlen
    omega

lemma sentenceLoop_spec (maxSize fuel : Nat) (S : List Str) :
    ∀ (sents : List Str) (cur : Str) (acc accR : List Str) (curR : Str),
      (∀ s ∈ sents, s ∈ S) →
      (∀ c ∈ acc, ChunkOK maxSize S c) →
      BufOK maxSize S cur →
      sentenceLoop maxSize fuel sents cur acc = some (accR, curR) →
      (∀ c ∈ accR, ChunkOK maxSize S c) ∧ BufOK maxSize S curR := by
  intro sents
  induction sents with
  | nil =>
    intro cur acc accR curR hS hacc hbuf h
    simp only [sentenceLoop, Option.some.injEq, Prod.mk.injEq] at h
    obtain ⟨h1, h2⟩ := h
    subst h1; subst h2
    exact ⟨hacc, hbuf⟩
  | cons s rest ih =>
    intro cur acc accR curR hS hacc hbuf h
    have hsS : s ∈ S := hS s (by simp)
    have hrestS : ∀ t ∈ rest, t ∈ S := fun t ht => hS t (by simp [ht])
    rw [sentenceLoop] at h
    by_cases hlen : maxSize < cur.length + s.length
    · rw [if_pos hlen] at h
      by_cases hcur : cur = []
      · rw [if_pos hcur] at h
        cases hw : splitWordsLoop maxSize fuel (pyWords s) with
        | none => rw [hw] at h; exact absurd h (by simp)
        | some cs =>
          rw [hw] at h
          refine ih [] (acc ++ cs) accR curR hrestS ?_ (Or.inl rfl) h
          intro c hc
          rcases List.mem_append.mp hc with hc | hc
          · exact hacc c hc
          · left
            have := splitWordsLoop_bound maxSize fuel (pyWords s) cs hw c hc
            omega
      · rw [if_neg hcur] at h
        refine ih s (acc ++ [pyStrip cur]) accR curR hrestS ?_ (Or.inr (Or.inl hsS)) h
        intro c hc
        rcases List.mem_append.mp hc with hc | hc
        · exact hacc c hc
        · simp only [List.mem_singleton] at hc
          subst hc
          exact flush_chunkOK maxSize S cur hbuf
    · rw [if_neg hlen] at h
      refine ih (cur ++ s ++ ['.', ' ']) acc accR curR hrestS hacc ?_ h
      right; right
      constructor
      · simp only [List.length_append, List.length_cons, List.length_nil]
        omega
      · exact ⟨cur ++ s, by simp⟩

/-- C4 (amended): every chunk returned by _split_text has length at most
maxChunkSize + 1, or is the whitespace-stripped form of one of the text's
". "-separated sentences emitted verbatim.  (The claim's bound of
maxChunkSize fails: a flushed buffer retains the appended period, and a
sentence longer than the limit that arrives while the buffer is non-empty
bypasses word-splitting entirely and is emitted whole.) -/
theorem split_text_chunk_bound (fuel maxSize : Nat) (text : Str)
    (chunks : List Str) (h : split_text fuel text maxSize = some chunks) :
    ∀ c ∈ chunks, c.length ≤ maxSize + 1 ∨
      ∃ s ∈ splitDotSpace (replaceNewlines text), c = pyStrip s := by
  rw [split_text] at h
  by_cases hfit : text.length ≤ maxSize
  · rw [if_pos hfit] at h
    simp only [Option.some.injEq] at h
    subst h
    intro c hc
    simp only [List.mem_singleton] at hc
    subst hc
    left; omega
  · rw [if_neg hfit] at h
    cases hloop : sentenceLoop maxSize fuel
        (splitDotSpace (replaceNewlines text)) [] [] with
    | none => rw [hloop] at h; exact absurd h (by simp)
    | some p =>
      rcases p with ⟨accR, curR⟩
      rw [hloop] at h
      simp only [Option.some.injEq] at h
      have hspec := sentenceLoop_spec maxSize fuel
        (splitDotSpace (replaceNewlines text))
        (splitDotSpace (replaceNewlines text)) [] [] accR curR
        (fun s hs => hs) (by simp) (Or.inl rfl) hloop
      obtain ⟨haccR, hbufR⟩ := hspec
      intro c hc
      subst h
      by_cases hstrip : pyStrip curR = []
      · rw [if_pos hstrip] at hc
        exact haccR c hc
      · rw [if_neg hstrip] at hc
        rcases List.mem_append.mp hc with hc | hc
        · exact haccR c hc
        · simp only [List.mem_singleton] at hc
          subst hc
          exact flush_chunkOK maxSize (splitDotSpace (replaceNewlines text))
            curR hbufR

/-- Witness for split_text_chunk_bound at a concrete input. -/
theorem split_text_chunk_bound_witness :
    split_text 1 "hello".toList 10 = some ["hello".toList] ∧
    (("hello".toList : Str).length ≤ 10 + 1 ∨
      ∃ s ∈ splitDotSpace (replaceNewlines "hello".toList),
        "hello".toList = pyStrip s) :=
  ⟨by decide,
   split_text_chunk_bound 1 10 "hello".toList ["hello".toList] (by decide)
     "hello".toList (by decide)⟩

/-- Counterexample to C4 as stated: chunking the text made of the sentences
"ab cdef" and "zzz" with maxChunkSize 7 emits the chunk "ab cdef." of
length 8, which is neither within the limit nor an oversized
whitespace-delimited token of the text (every token of this text has
length at most 5). -/
theorem chunk_bound_counterexample :
    split_text 9 "ab cdef. zzz".toList 7 =
      some ["ab cdef.".toList, "zzz".toList] ∧
    ¬ specChunkOK "ab cdef. zzz".toList 7 "ab cdef.".toList :=
  ⟨by decide, by decide⟩

/-! Pipeline theorems (C1, C2, C5, C6). -/

/-- C1 (amended): process_document performs no guard on the current
status: its whole behaviour, including the inserted chunk batch and the
retry bookkeeping, is the same whatever status the record is in when the
run starts; in particular a document already in PROCESSING is processed
again in full rather than skipped. -/
theorem process_document_ignores_status (fuel : Nat) (env : RunEnv)
    (doc : Doc) (store : VStore) (st1 st2 : Status) :
    process_document fuel env { doc with status := st1 } store =
      process_document fuel env { doc with status := st2 } store := rfl

/-- Counterexample to C1 as stated: Submit on a document already in
PROCESSING is not a no-op.  Two runs in immediate succession each execute
the pipeline and each insert a chunk batch, leaving two rows with the same
chunk id (and the first run already rewrites the record). -/
theorem submit_on_processing_counterexample :
    ({ baseDoc with status := .processing } : Doc).status = .processing ∧
    (ceRun1.map fun r => r.2.1.length) = some 1 ∧
    (ceRun1.map fun r => r.1.status) = some .completed ∧
    (ceRun2.map fun r => r.2.1.map ChunkRow.rowId) =
      some ["d1_chunk_0", "d1_chunk_0"] ∧
    ¬ (["d1_chunk_0", "d1_chunk_0"] : List String).Nodup := by
  refine ⟨rfl, by decide, by decide, by decide, by decide⟩

/-- C5 (amended): create_document_embedding deletes nothing: every
previously indexed row survives the call and the new batch is appended
after them, so reindexing a document leaves the stale batch alongside the
new one. -/
theorem create_embedding_keeps_stale (encode : Str → Int) (fuel : Nat)
    (store : VStore) (docId : String) (text : Str) (md : ChunkMeta)
    (store' : VStore) (n : Nat)
    (h : create_document_embedding encode none fuel store docId text md =
      some (.ok (store', n))) :
    ∃ newRows, store' = store ++ newRows ∧ newRows.length = n := by
  unfold create_document_embedding at h
  cases hs : split_text fuel text 1000 with
  | none => rw [hs] at h; exact absurd h (by simp)
  | some cs =>
    rw [hs] at h
    dsimp only at h
    simp only [Option.some.injEq, Except.ok.injEq, Prod.mk.injEq] at h
    obtain ⟨h1, h2⟩ := h
    exact ⟨_, h1.symm, h2⟩

/-- Witness for create_embedding_keeps_stale at a concrete reindexing. -/
theorem create_embedding_keeps_stale_witness :
    create_document_embedding (fun _ => 0) none 1 sampleIndexed "d1"
      "hello".toList sampleMeta =
      some (.ok (sampleIndexed ++ sampleIndexed, 1)) ∧
    ∃ newRows, sampleIndexed ++ sampleIndexed = sampleIndexed ++ newRows ∧
      newRows.length = 1 :=
  ⟨by decide,
   create_embedding_keeps_stale (fun _ => 0) 1 sampleIndexed "d1"
     "hello".toList sampleMeta (sampleIndexed ++ sampleIndexed) 1 (by decide)⟩

/-- Counterexample to C5 as stated: indexing the same document twice with
no intervening delete keeps both batches, with duplicate chunk ids in the
store. -/
theorem index_twice_duplicates_counterexample :
    create_document_embedding (fun _ => 0) none 1 [] "d1" "hello".toList
      sampleMeta = some (.ok (sampleIndexed, 1)) ∧
    create_document_embedding (fun _ => 0) none 1 sampleIndexed "d1"
      "hello".toList sampleMeta =
      some (.ok (sampleIndexed ++ sampleIndexed, 1)) ∧
    ((sampleIndexed ++ sampleIndexed).map ChunkRow.rowId =
      ["d1_chunk_0", "d1_chunk_0"]) ∧
    ¬ ((sampleIndexed ++ sampleIndexed).map ChunkRow.rowId).Nodup :=
  ⟨by decide, by decide, by decide, by decide⟩

/-- C2 (amended): when the Analyzer collaborator raises or times out
mid-run the exception is swallowed inside analyze_document: the stage
sequence continues, the document ends COMPLETED with retryCount unchanged,
the extracted text is persisted, and the analyzer failure is recorded as an
error payload in the analysis result. -/
theorem analyzer_failure_swallowed (fuel : Nat) (env : RunEnv) (doc : Doc)
    (store : VStore) (msg : String) (ocrRes : OcrResult) (d' : Doc)
    (s' : VStore) (r : RunOutcome)
    (hocr : env.ocr = .ok ocrRes) (hllm : env.llmCall = .failure msg)
    (hins : env.insertOk = none)
    (hrun : process_document fuel env doc store = some (d', s', r)) :
    d'.status = .completed ∧ d'.retryCount = doc.retryCount ∧
    d'.extractedText = some ocrRes.text ∧
    ∃ m, d'.llmAnalysis = some (.errorPayload m) := by
  unfold process_document at hrun
  rw [hocr] at hrun
  dsimp only at hrun
  unfold create_document_embedding at hrun
  rw [hins] at hrun
  cases hs : split_text fuel ocrRes.text 1000 with
  | none => rw [hs] at hrun; exact absurd hrun (by simp)
  | some cs =>
    rw [hs] at hrun
    dsimp only at hrun
    simp only [Option.some.injEq, Prod.mk.injEq] at hrun
    obtain ⟨hd, _, _⟩ := hrun
    subst hd
    refine ⟨rfl, rfl, rfl, ?_⟩
    rw [hllm]
    unfold analyze_document
    by_cases hlen : (pyStrip ocrRes.text).length < 10
    · rw [if_pos hlen]
      exact ⟨"Text too short for analysis", rfl⟩
    · rw [if_neg hlen]
      exact ⟨"Analysis failed: " ++ msg, rfl⟩

/-- Witness for analyzer_failure_swallowed on the sample document. -/
theorem analyzer_failure_swallowed_witness :
    timeoutDoc.status = .completed ∧ timeoutDoc.retryCount = baseDoc.retryCount ∧
    timeoutDoc.extractedText = some "hello world of documents".toList ∧
    ∃ m, timeoutDoc.llmAnalysis = some (.errorPayload m) :=
  analyzer_failure_swallowed 1 timeoutEnv baseDoc [] "Request timed out"
    ⟨"hello world of documents".toList, 1, 1, "en"⟩ timeoutDoc timeoutStore
    timeoutOutcome rfl rfl rfl (by decide)

/-- Counterexample to C2 as stated: the Analyzer timing out mid-run over a
fresh document does not stop the stage sequence: the document ends
COMPLETED, not FAILED, retryCount stays 0 instead of incrementing, and the
analyzer failure is recorded inside the analysis result. -/
theorem analyzer_timeout_counterexample :
    (timeoutRun.map fun r => r.1.status) = some .completed ∧
    (timeoutRun.map fun r => r.1.retryCount) = some 0 ∧
    (timeoutRun.map fun r => r.1.llmAnalysis) =
      some (some (.errorPayload "Analysis failed: Request timed out")) ∧
    ¬ (timeoutRun.map fun r => r.1.status) = some .failed :=
  ⟨by decide, by decide, by decide, by decide⟩

/-- C6 (amended): a run on a document whose extractedText and
analysisResult are still null (a freshly uploaded document) re-establishes
the data-model invariant whatever the outcome: a failed run records an
error message and persists no results, a completed run persists results
with status COMPLETED. -/
theorem run_preserves_invariant (fuel : Nat) (env : RunEnv) (doc : Doc)
    (store : VStore) (d' : Doc) (s' : VStore) (r : RunOutcome)
    (hfresh1 : doc.extractedText = none) (hfresh2 : doc.llmAnalysis = none)
    (hrun : process_document fuel env doc store = some (d', s', r)) :
    DocInv d' := by
  unfold process_document at hrun
  cases hocr : env.ocr with
  | error msg =>
    rw [hocr] at hrun
    simp only [Option.some.injEq, Prod.mk.injEq] at hrun
    obtain ⟨hd, _, _⟩ := hrun
    subst hd
    refine ⟨fun h => absurd hfresh1 h, fun h => absurd hfresh2 h, fun _ => ?_⟩
    simp [failDoc]
  | ok ocrRes =>
    rw [hocr] at hrun
    dsimp only at hrun
    unfold create_document_embedding at hrun
    cases hs : split_text fuel ocrRes.text 1000 with
    | none => rw [hs] at hrun; exact absurd hrun (by simp)
    | some cs =>
      rw [hs] at hrun
      cases hins : env.insertOk with
      | some msg =>
        rw [hins] at hrun
        dsimp only at hrun
        simp only [Option.some.injEq, Prod.mk.injEq] at hrun
        obtain ⟨hd, _, _⟩ := hrun
        subst hd
        refine ⟨fun h => absurd hfresh1 h, fun h => absurd hfresh2 h, fun _ => ?_⟩
        simp [failDoc]
      | none =>
        rw [hins] at hrun
        dsimp only at hrun
        simp only [Option.some.injEq, Prod.mk.injEq] at hrun
        obtain ⟨hd, _, _⟩ := hrun
        subst hd
        exact ⟨fun _ => rfl, fun _ => rfl, fun h => absurd h (by simp)⟩

/-- Witness for run_preserves_invariant on the sample timeout run. -/
theorem run_preserves_invariant_witness : DocInv timeoutDoc :=
  run_preserves_invariant 1 timeoutEnv baseDoc [] timeoutDoc timeoutStore
    timeoutOutcome rfl rfl (by decide)

/-- Counterexample to C6 as stated: Reprocess on a COMPLETED document does
not re-establish the invariant: it resets the status to UPLOADED while
leaving extractedText and analysisResult populated. -/
theorem reprocess_invariant_counterexample :
    DocInv completedDoc ∧
    (reprocess_document completedDoc []).1.status = .uploaded ∧
    (reprocess_document completedDoc []).1.extractedText ≠ none ∧
    ¬ DocInv (reprocess_document completedDoc []).1 :=
  ⟨by decide, rfl, by decide, by decide⟩

/-! Cache theorems (C9, C10). -/

lemma cacheGet_del_self (c : Cache) (k : String) :
    cacheGet (cacheDel c k) k = none := by
  induction c with
  | nil => rfl
  | cons e rest ih =>
    by_cases he : e.key = k
    · simpa [cacheDel, List.filter_cons, he] using ih
    · simp only [cacheDel, List.filter_cons] at ih ⊢
      rw [if_pos (by simp [bne_iff_ne, he])]
      simp only [cacheGet, List.find?_cons] at ih ⊢
      rw [show (e.key == k) = false by simp [he]]
      exact ih

lemma cacheGet_del_preserve_none (c : Cache) (k k' : String)
    (h : cacheGet c k = none) : cacheGet (cacheDel c k') k = none := by
  induction c with
  | nil => rfl
  | cons e rest ih =>
    simp only [cacheGet, List.find?_cons] at h
    cases hek : (e.key == k) with
    | true => rw [hek] at h; simp at h
    | false =>
      rw [hek] at h
      simp only [cacheDel, List.filter_cons]
      by_cases he' : e.key = k'
      · rw [if_neg (by simp [he'])]
        exact ih h
      · rw [if_pos (by simp [bne_iff_ne, he'])]
        simp only [cacheGet, List.find?_cons, hek]
        exact ih h

lemma cacheGet_clear_none (c : Cache) (docId k : String)
    (h : k = "status:" ++ docId ∨ k = "results:" ++ docId ∨
      k = "insights:" ++ docId) :
    cacheGet (clear_document_cache c docId) k = none := by
  unfold clear_document_cache
  rcases h with h | h | h
  · subst h
    exact cacheGet_del_preserve_none _ _ _
      (cacheGet_del_preserve_none _ _ _ (cacheGet_del_self _ _))
  · subst h
    exact cacheGet_del_preserve_none _ _ _ (cacheGet_del_self _ _)
  · subst h
    exact cacheGet_del_self _ _

/-- C9: for every document and every prior state, Reprocess resets
retryCount to 0, clears errorMessage, resets the status to UPLOADED, leaves
no cache entry for the document in the status, results or insights
namespaces, and performs the cache clearing before scheduling the new
run. -/
theorem reprocess_resets_and_clears (doc : Doc) (cache : Cache) :
    (reprocess_document doc cache).1.retryCount = 0 ∧
    (reprocess_document doc cache).1.errorMessage = none ∧
    (reprocess_document doc cache).1.status = .uploaded ∧
    cacheGet (reprocess_document doc cache).2.1 ("status:" ++ doc.docId) =
      none ∧
    cacheGet (reprocess_document doc cache).2.1 ("results:" ++ doc.docId) =
      none ∧
    cacheGet (reprocess_document doc cache).2.1 ("insights:" ++ doc.docId) =
      none ∧
    (reprocess_document doc cache).2.2 =
      [.commitReset, .cacheCleared, .scheduledRun] :=
  ⟨rfl, rfl, rfl,
   cacheGet_clear_none cache doc.docId _ (Or.inl rfl),
   cacheGet_clear_none cache doc.docId _ (Or.inr (Or.inl rfl)),
   cacheGet_clear_none cache doc.docId _ (Or.inr (Or.inr rfl)),
   rfl⟩

/-- C10: with no cached results entry, GetResults on an existing document
whose status is not COMPLETED answers InvalidStateError and leaves the
cache exactly as it was: no write happens in the results namespace. -/
theorem get_results_requires_completed (cache : Cache) (doc : Doc)
    (docId : String)
    (hmiss : cacheGet cache ("results:" ++ docId) = none)
    (hst : doc.status ≠ .completed) :
    get_document_results cache (some doc) docId =
      (.invalidState doc.status, cache) := by
  unfold get_document_results
  rw [hmiss]
  dsimp only
  rw [if_pos hst]

/-- Witness for get_results_requires_completed on a processing document. -/
theorem get_results_requires_completed_witness :
    cacheGet [] ("results:" ++ "d1") = none ∧
    ({ baseDoc with status := .processing } : Doc).status ≠ .completed ∧
    get_document_results [] (some { baseDoc with status := .processing })
      "d1" = (.invalidState .processing, []) :=
  ⟨rfl, by decide,
   get_results_requires_completed [] { baseDoc with status := .processing }
     "d1" rfl (by decide)⟩

/-! Search theorems (C7, C8). -/

/-- Counterexample to C7 as stated: with the embedding model unavailable
and a non-empty corpus, the body of the search raises, but
search_similar_documents catches the exception and returns the empty list:
no SearchError reaches the caller, who cannot distinguish this from an
empty corpus. -/
theorem search_error_swallowed_counterexample :
    searchBody ⟨false, true⟩ [sampleHit] 5 =
      .error "embedding model unavailable" ∧
    search_similar_documents ⟨false, true⟩ [sampleHit] 5 = [] :=
  ⟨by decide, by decide⟩

/-- C7 (amended): Search never surfaces an error: collaborator
unavailability is caught and answered with the empty list, exactly like a
corpus that contains no chunks. -/
theorem search_never_errors (env : SearchEnv) (ranking : List Hit)
    (limit : Nat) :
    ((env.embedderUp = false ∨ env.storeUp = false) →
      search_similar_documents env ranking limit = []) ∧
    (ranking = [] → search_similar_documents env ranking limit = []) := by
  constructor
  · intro h
    unfold search_similar_documents searchBody
    rcases h with h | h
    · rw [h]; simp
    · rw [h]
      by_cases he : env.embedderUp = false <;> simp [he]
  · intro h
    subst h
    unfold search_similar_documents searchBody
    by_cases he : env.embedderUp = false <;>
      by_cases hs : env.storeUp = false <;>
        simp [he, hs, searchLoop]

/-- Witness for search_never_errors: embedder outage over a non-empty
corpus, and an empty corpus with both collaborators available. -/
theorem search_never_errors_witness :
    search_similar_documents ⟨false, true⟩ [sampleHit] 5 = [] ∧
    search_similar_documents upEnv [] 5 = [] :=
  ⟨(search_never_errors ⟨false, true⟩ [sampleHit] 5).1 (Or.inl rfl),
   (search_never_errors upEnv [] 5).2 rfl⟩

lemma searchLoop_spec (limit : Nat) :
    ∀ (hits : List Hit) (acc : List SimilarDoc) (seen : List String),
      hits.Pairwise (fun a b => b.score ≤ a.score) →
      (∀ a ∈ acc, a.documentId ∈ seen) →
      (acc.map SimilarDoc.documentId).Nodup →
      (∀ a ∈ acc, ∀ h ∈ hits, h.documentId = a.documentId →
        h.score ≤ a.similarityScore) →
      (∀ d ∈ seen, ∃ a ∈ acc, a.documentId = d) →
      acc.length < limit →
      (searchLoop limit hits acc seen).length ≤ limit ∧
      ((searchLoop limit hits acc seen).map SimilarDoc.documentId).Nodup ∧
      (∀ a ∈ searchLoop limit hits acc seen, ∀ h ∈ hits,
        h.documentId = a.documentId → h.score ≤ a.similarityScore) ∧
      (∃ t, searchLoop limit hits acc seen = acc ++ t) := by
  intro hits
  induction hits with
  | nil =>
    intro acc seen _ _ hnodup _ _ hlen
    refine ⟨?_, ?_, ?_, ⟨[], by simp [searchLoop]⟩⟩
    · simpa [searchLoop] using Nat.le_of_lt hlen
    · simpa [searchLoop] using hnodup
    · intro a _ h hh
      simp at hh
  | cons h rest ih =>
    intro acc seen hsort hseen hnodup hbound hcov hlen
    have hh : ∀ b ∈ rest, b.score ≤ h.score := (List.pairwise_cons.mp hsort).1
    have hsort' : rest.Pairwise (fun a b => b.score ≤ a.score) :=
      (List.pairwise_cons.mp hsort).2
    by_cases hmem : h.documentId ∈ seen
    · simp only [searchLoop, if_pos hmem]
      have hbound' : ∀ a ∈ acc, ∀ h' ∈ rest, h'.documentId = a.documentId →
          h'.score ≤ a.similarityScore :=
        fun a ha h' hh' => hbound a ha h' (List.mem_cons_of_mem _ hh')
      obtain ⟨l1, n1, b1, t, ht⟩ :=
        ih acc seen hsort' hseen hnodup hbound' hcov hlen
      refine ⟨l1, n1, ?_, ⟨t, ht⟩⟩
      intro a ha h' hh' hid
      rcases List.mem_cons.mp hh' with heq | hh'
      · obtain ⟨a0, ha0acc, ha0d⟩ := hcov h.documentId hmem
        have hscore : h.score ≤ a0.similarityScore :=
          hbound a0 ha0acc h (List.mem_cons_self _ _) ha0d.symm
        have ha0res : a0 ∈ searchLoop limit rest acc seen := by
          rw [ht]; exact List.mem_append_left _ ha0acc
        have heqa : a = a0 :=
          List.inj_on_of_nodup_map n1 ha ha0res (by rw [← hid, heq, ha0d])
        rw [heqa, heq]
        exact hscore
      · exact b1 a ha h' hh' hid
    · simp only [searchLoop, if_neg hmem]
      have hnotin : h.documentId ∉ acc.map SimilarDoc.documentId := by
        intro hin
        obtain ⟨a1, ha1, hda1⟩ := List.mem_map.mp hin
        exact hmem (hda1 ▸ hseen a1 ha1)
      have hnodup' :
          ((acc ++ [toSimilar h]).map SimilarDoc.documentId).Nodup := by
        rw [List.map_append]
        refine hnodup.append (by simp) ?_
        intro x hx hx'
        simp only [List.map_cons, List.map_nil, List.mem_singleton] at hx'
        subst hx'
        exact hnotin hx
      by_cases hfull : limit ≤ (acc ++ [toSimilar h]).length
      · simp only [if_pos hfull]
        refine ⟨?_, hnodup', ?_, ⟨[toSimilar h], rfl⟩⟩
        · simp only [List.length_append, List.length_singleton]
          omega
        · intro a ha h' hh' hid
          rcases List.mem_append.mp ha with ha | ha
          · rcases List.mem_cons.mp hh' with heq | hh'
            · have hds : h.documentId ∈ seen := by
                rw [← heq, hid]; exact hseen a ha
              exact absurd hds hmem
            · exact hbound a ha h' (List.mem_cons_of_mem _ hh') hid
          · simp only [List.mem_singleton] at ha
            subst ha
            rcases List.mem_cons.mp hh' with heq | hh'
            · exact le_of_eq (by rw [heq]; rfl)
            · exact hh h' hh'
      · simp only [if_neg hfull]
        have hseen' : ∀ a ∈ acc ++ [toSimilar h],
            a.documentId ∈ h.documentId :: seen := by
          intro a ha
          rcases List.mem_append.mp ha with ha | ha
          · exact List.mem_cons_of_mem _ (hseen a ha)
          · simp only [List.mem_singleton] at ha
            subst ha
            exact List.mem_cons_self _ _
        have hbound' : ∀ a ∈ acc ++ [toSimilar h], ∀ h' ∈ rest,
            h'.documentId = a.documentId → h'.score ≤ a.similarityScore := by
          intro a ha h' hh' hid
          rcases List.mem_append.mp ha with ha | ha
          · exact hbound a ha h' (List.mem_cons_of_mem _ hh') hid
          · simp only [List.mem_singleton] at ha
            subst ha
            exact hh h' hh'
        have hcov' : ∀ d ∈ h.documentId :: seen,
            ∃ a ∈ acc ++ [toSimilar h], a.documentId = d := by
          intro d hd
          rcases List.mem_cons.mp hd with rfl | hd
          · exact ⟨toSimilar h, List.mem_append_right _ (by simp), rfl⟩
          · obtain ⟨a0, ha0, hda0⟩ := hcov d hd
            exact ⟨a0, List.mem_append_left _ ha0, hda0⟩
        have hlen' : (acc ++ [toSimilar h]).length < limit := by
          omega
        obtain ⟨l1, n1, b1, t', ht'⟩ := ih (acc ++ [toSimilar h])
          (h.documentId :: seen) hsort' hseen' hnodup' hbound' hcov' hlen'
        refine ⟨l1, n1, ?_, ⟨[toSimilar h] ++ t', by
          rw [ht', List.append_assoc]⟩⟩
        intro a ha h' hh' hid
        rcases List.mem_cons.mp hh' with heq | hh'
        · have hsmem : toSimilar h ∈
              searchLoop limit rest (acc ++ [toSimilar h])
                (h.documentId :: seen) := by
            rw [ht']
            exact List.mem_append_left _ (List.mem_append_right _ (by simp))
          have heq2 : a = toSimilar h :=
            List.inj_on_of_nodup_map n1 ha hsmem (by rw [← hid, heq]; rfl)
          rw [heq2]
          exact le_of_eq (by rw [heq]; rfl)
        · exact b1 a ha h' hh' hid

/-- C8: whenever the search endpoint accepts the request (its validation
requires 1 ≤ limit ≤ 50), and Milvus returns its ranking in descending
similarity order, the returned list has at most limit entries, no two
entries share a documentID, and every entry carries a similarity at least
that of every chunk of the same document in the 2 x limit over-fetched
ranking: the first — highest-similarity — chunk per document wins. -/
theorem search_results_deduplicated (env : SearchEnv) (ranking : List Hit)
    (query : Str) (limit : Nat) (res : List SimilarDoc)
    (hsort : ranking.Pairwise (fun a b => b.score ≤ a.score))
    (hok : search_documents_endpoint env ranking query limit = .ok res) :
    res.length ≤ limit ∧ (res.map SimilarDoc.documentId).Nodup ∧
    ∀ a ∈ res, ∀ h ∈ ranking.take (limit * 2),
      h.documentId = a.documentId → h.score ≤ a.similarityScore := by
  unfold search_documents_endpoint at hok
  by_cases hq : query.length < 3
  · rw [if_pos hq] at hok
    exact absurd hok (by simp)
  · rw [if_neg hq] at hok
    by_cases hl : limit < 1 ∨ 50 < limit
    · rw [if_pos hl] at hok
      exact absurd hok (by simp)
    · rw [if_neg hl] at hok
      simp only [Except.ok.injEq] at hok
      subst hok
      unfold search_similar_documents searchBody
      by_cases he : env.embedderUp = false
      · simp [he]
      · by_cases hs : env.storeUp = false
        · simp [he, hs]
        · rw [if_neg he, if_neg hs]
          dsimp only
          have hsort' : (ranking.take (limit * 2)).Pairwise
              (fun a b => b.score ≤ a.score) :=
            hsort.sublist (List.take_sublist _ _)
          obtain ⟨l1, n1, b1, _⟩ := searchLoop_spec limit
            (ranking.take (limit * 2)) [] [] hsort' (by simp) (by simp)
            (by simp) (by simp) (by simp; omega)
          exact ⟨l1, n1, b1⟩

/-- Witness for search_results_deduplicated on the sample ranking. -/
theorem search_results_deduplicated_witness :
    sampleSearchRes.length ≤ 5 ∧
    (sampleSearchRes.map SimilarDoc.documentId).Nodup ∧
    ∀ a ∈ sampleSearchRes, ∀ h ∈ sampleRanking.take (5 * 2),
      h.documentId = a.documentId → h.score ≤ a.similarityScore :=
  search_results_deduplicated upEnv sampleRanking "abc".toList 5
    sampleSearchRes (by decide) (by decide)

end DocProc
